import Mathlib

/-!
# Heimdall sandbox execution coordinator: a verification development

A shallow embedding of the Heimdall MCP sandbox server (workspace filesystem
bridge, Python execution controller, shell execution controller, sandbox
coordinator) together with proofs of the spec's testable properties.

The repository's `src/` tree ships only the server entry point
(`src/server.ts`), the tool-registration shim (`src/tools/index.ts`) and the
test suites; the core modules they call (`src/core/pyodide-manager.ts`,
`src/core/bash-manager.ts`, `src/tools/filesystem.ts`,
`src/tools/python-execution.ts`, `src/tools/bash-execution.ts`) are absent.
Every definition below that embeds one of those absent modules is therefore
modelled from the specification's words (and the observable behaviour pinned
down by the test suites), as indicated by its doc comment.
-/

namespace Heimdall

/-! ## Generic string helpers (substring search over character lists) -/

/-- `charsEqPre needle hay` is `true` iff `needle` is a leading segment of
`hay`. -/
def charsEqPre : List Char → List Char → Bool
  | [], _ => true
  | _ :: _, [] => false
  | a :: as, b :: bs => if a = b then charsEqPre as bs else false

/-- `charsFindSub needle hay` is `true` iff `needle` occurs contiguously
somewhere in `hay`. -/
def charsFindSub (needle : List Char) : List Char → Bool
  | [] => charsEqPre needle []
  | c :: t => charsEqPre needle (c :: t) || charsFindSub needle t

/-- `strContainsSub hay needle` : does `needle` occur as a substring of
`hay`? -/
def strContainsSub (hay needle : String) : Bool :=
  charsFindSub needle.toList hay.toList

theorem charsEqPre_self (l : List Char) : charsEqPre l l = true := by
  induction l with
  | nil => rfl
  | cons a t ih => simp [charsEqPre, ih]

theorem charsFindSub_append (n pre : List Char) :
    charsFindSub n (pre ++ n) = true := by
  induction pre with
  | nil =>
    cases n with
    | nil => rfl
    | cons c t =>
      show charsFindSub (c :: t) (c :: t) = true
      unfold charsFindSub
      rw [charsEqPre_self]
      simp
  | cons c rest ih =>
    show charsFindSub n (c :: (rest ++ n)) = true
    unfold charsFindSub
    rw [ih]
    simp

theorem string_toList_append (a b : String) :
    (a ++ b).toList = a.toList ++ b.toList := by
  cases a
  cases b
  rfl

theorem string_empty_append (s : String) : "" ++ s = s := by
  cases s
  rfl

/-- A needle preceded by an arbitrary prefix is found. -/
theorem strContainsSub_of_append (pre n : String) :
    strContainsSub (pre ++ n) n = true := by
  unfold strContainsSub
  rw [string_toList_append]
  exact charsFindSub_append _ _

/-! ## Workspace filesystem bridge

Modelled from the spec: the Workspace Filesystem Bridge
(`src/tools/filesystem.ts` and the filesystem layer of
`src/core/pyodide-manager.ts`) is absent from `src/`.  Per spec §4.1 it maps a
bounded virtual directory tree onto host storage, normalizes and canonicalizes
every virtual path against the host root, fails closed with
`SecurityViolation` on any canonical result outside the root (whether the
escape is via `..`, an absolute path, or a symlink created by a prior
execution — symlink targets are re-validated at access time), and funnels
read/write/list/delete through that check. -/

/-- A virtual path as submitted by sandboxed code: absolute (starting at the
virtual filesystem root `/`, under which the workspace is mounted at
`/workspace`) or relative to the workspace root. -/
structure VPath where
  absolute : Bool
  segs : List String
deriving DecidableEq

/-- The virtual mount point of the workspace, as in the sandbox-escape tests
(`/workspace/...`). -/
def workspaceSeg : String := "workspace"

/-- A canonical host path: segments relative to the workspace root, free of
`.` / `..` / empty segments. -/
abbrev HostPath := List String

/-- An entry of the workspace tree: a regular file, a directory, or a
symbolic link (whose target is stored verbatim and re-validated on every
access, never at creation time). -/
inductive Entry
  | file (content : String)
  | dir
  | symlink (target : VPath)
deriving DecidableEq

/-- The durable workspace store: an association list from canonical host
paths to entries (later bindings shadow earlier ones). -/
abbrev FS := List (HostPath × Entry)

def fsGet : FS → HostPath → Option Entry
  | [], _ => none
  | (k, e) :: rest, p => if k = p then some e else fsGet rest p

def fsSet (fs : FS) (p : HostPath) (e : Entry) : FS := (p, e) :: fs

def fsRemove : FS → HostPath → FS
  | [], _ => []
  | (k, e) :: rest, p =>
    if k = p then fsRemove rest p else (k, e) :: fsRemove rest p

/-- Strip the virtual mount point: an absolute virtual path must start with
`/workspace` to denote anything inside the workspace; any other absolute path
(e.g. `/etc/passwd`) is outside the root. -/
def stripRoot (p : VPath) : Option (List String) :=
  if p.absolute then
    match p.segs with
    | [] => none
    | s :: rest => if s = workspaceSeg then some rest else none
  else some p.segs

/-- Normalize `.` / `..` / empty segments; a `..` that climbs above the
workspace root makes the whole path escape (`none`). -/
def normSegs : List String → List String → Option (List String)
  | acc, [] => some acc.reverse
  | acc, s :: rest =>
    if s = "" ∨ s = "." then normSegs acc rest
    else if s = ".." then
      match acc with
      | [] => none
      | _ :: t => normSegs t rest
    else normSegs (s :: acc) rest

/-- Canonicalize a virtual path against the workspace root; `none` means the
canonical result lies outside the root. -/
def canonicalize (p : VPath) : Option HostPath :=
  (stripRoot p).bind (normSegs [])

/-- Resolve a virtual path to a canonical host path, following (and
re-validating) a symbolic link found at the canonical location.  The target
of a link is canonicalized at access time; a target outside the root, or a
link chaining into another link, fails closed (`none`), which every operation
below reports as `SecurityViolation`. -/
def resolve (fs : FS) (p : VPath) : Option HostPath :=
  match canonicalize p with
  | none => none
  | some n =>
    match fsGet fs n with
    | some (.symlink t) =>
      match canonicalize t with
      | none => none
      | some m =>
        match fsGet fs m with
        | some (.symlink _) => none
        | _ => some m
    | _ => some n

/-- The error taxonomy of the bridge (spec §7). -/
inductive FsError
  | securityViolation
  | notFound
  | isADirectory
  | directoryNotEmpty
deriving DecidableEq

/-- Modelled from the spec: `readFile(path) -> text / FilesystemError`,
funneled through `resolve`. -/
def readFile (fs : FS) (p : VPath) : Except FsError String :=
  match resolve fs p with
  | none => .error .securityViolation
  | some h =>
    match fsGet fs h with
    | some (.file c) => .ok c
    | some .dir => .error .isADirectory
    | _ => .error .notFound

/-- Modelled from the spec: `writeFile(path, content)`; the second component
is the workspace store after the call (unchanged when the call fails, so
"performs no host-side effect" is the provable `= fs`). -/
def writeFile (fs : FS) (p : VPath) (c : String) : Except FsError Unit × FS :=
  match resolve fs p with
  | none => (.error .securityViolation, fs)
  | some h =>
    match fsGet fs h with
    | some .dir => (.error .isADirectory, fs)
    | _ => (.ok (), fsSet fs h (.file c))

/-- Listing metadata: name, kind, byte size (spec §4.1). -/
structure DirEntryInfo where
  name : String
  isDir : Bool
  size : Nat
deriving DecidableEq

def entryIsDir : Entry → Bool
  | .dir => true
  | _ => false

def entrySize : Entry → Nat
  | .file c => c.length
  | _ => 0

def childName (h : HostPath) (k : HostPath) : Option String :=
  if k.take h.length = h ∧ k.length = h.length + 1 then k.getLast? else none

/-- Modelled from the spec: `listFiles(path) -> list<{name, isDirectory,
size}>`, funneled through `resolve`. -/
def listFiles (fs : FS) (p : VPath) : Except FsError (List DirEntryInfo) :=
  match resolve fs p with
  | none => .error .securityViolation
  | some h =>
    if h = [] ∨ fsGet fs h = some .dir then
      .ok (fs.filterMap fun kv =>
        match childName h kv.1 with
        | some n => some ⟨n, entryIsDir kv.2, entrySize kv.2⟩
        | none => none)
    else .error .notFound

def hasChild (fs : FS) (h : HostPath) : Bool :=
  fs.any fun kv => decide (kv.1.take h.length = h) && decide (h.length < kv.1.length)

/-- Modelled from the spec: `deleteFile(path)`; deleting a non-empty
directory fails rather than recursing; the second component is the store
after the call. -/
def deleteFile (fs : FS) (p : VPath) : Except FsError Unit × FS :=
  match resolve fs p with
  | none => (.error .securityViolation, fs)
  | some h =>
    match fsGet fs h with
    | none => (.error .notFound, fs)
    | some .dir =>
      if hasChild fs h then (.error .directoryNotEmpty, fs)
      else (.ok (), fsRemove fs h)
    | some _ => (.ok (), fsRemove fs h)

/-! ### Claims C1 and C6 -/

/-- **C1.** For every virtual path whose canonical resolution lies outside
the workspace root (`resolve fs p = none`: escape via `..`, via an absolute
path outside `/workspace`, or via a symlink — created by any prior execution
— whose target re-validation at access time fails), every filesystem
operation (read, write, list, delete) returns `SecurityViolation`, and the
mutating operations leave the workspace store untouched (no host-side
effect). -/
theorem c1_escape_fails_closed (fs : FS) (p : VPath) (c : String)
    (hres : resolve fs p = none) :
    readFile fs p = .error .securityViolation
    ∧ listFiles fs p = .error .securityViolation
    ∧ (writeFile fs p c).1 = .error .securityViolation
    ∧ (writeFile fs p c).2 = fs
    ∧ (deleteFile fs p).1 = .error .securityViolation
    ∧ (deleteFile fs p).2 = fs := by
  refine ⟨?_, ?_, ?_, ?_, ?_, ?_⟩ <;>
    simp [readFile, listFiles, writeFile, deleteFile, hres]

/-- Witness for C1: the exact scenario of the symlink-escape test — a prior
execution created `/workspace/py-created-link -> /etc/passwd`; accessing the
link re-validates the target, which canonicalizes outside the root, and every
operation fails closed. -/
theorem c1_escape_fails_closed_witness :
    resolve [(["py-created-link"], Entry.symlink ⟨true, ["etc", "passwd"]⟩)]
        ⟨false, ["py-created-link"]⟩ = none
    ∧ (readFile [(["py-created-link"], Entry.symlink ⟨true, ["etc", "passwd"]⟩)]
          ⟨false, ["py-created-link"]⟩ = .error .securityViolation
      ∧ listFiles [(["py-created-link"], Entry.symlink ⟨true, ["etc", "passwd"]⟩)]
          ⟨false, ["py-created-link"]⟩ = .error .securityViolation
      ∧ (writeFile [(["py-created-link"], Entry.symlink ⟨true, ["etc", "passwd"]⟩)]
          ⟨false, ["py-created-link"]⟩ "x").1 = .error .securityViolation
      ∧ (writeFile [(["py-created-link"], Entry.symlink ⟨true, ["etc", "passwd"]⟩)]
          ⟨false, ["py-created-link"]⟩ "x").2
          = [(["py-created-link"], Entry.symlink ⟨true, ["etc", "passwd"]⟩)]
      ∧ (deleteFile [(["py-created-link"], Entry.symlink ⟨true, ["etc", "passwd"]⟩)]
          ⟨false, ["py-created-link"]⟩).1 = .error .securityViolation
      ∧ (deleteFile [(["py-created-link"], Entry.symlink ⟨true, ["etc", "passwd"]⟩)]
          ⟨false, ["py-created-link"]⟩).2
          = [(["py-created-link"], Entry.symlink ⟨true, ["etc", "passwd"]⟩)]) :=
  ⟨by decide,
   c1_escape_fails_closed
     [(["py-created-link"], Entry.symlink ⟨true, ["etc", "passwd"]⟩)]
     ⟨false, ["py-created-link"]⟩ "x" (by decide)⟩

/-- **C6 (counterexample).** The claim as stated — the round trip holds for
*every* path inside the workspace — fails when the path resolves to an
existing directory: `writeFile` refuses to overwrite a directory, so the
subsequent `readFile` does not return the written content. -/
theorem c6_roundtrip_counterexample :
    ¬ (readFile (writeFile [(["d"], Entry.dir)] ⟨false, ["d"]⟩ "hello").2
        ⟨false, ["d"]⟩ = .ok "hello") := by
  intro hcontra
  have hval : readFile (writeFile [(["d"], Entry.dir)] ⟨false, ["d"]⟩ "hello").2
      ⟨false, ["d"]⟩ = .error .isADirectory := rfl
  rw [hval] at hcontra
  exact Except.noConfusion hcontra

/-- **C6 (amended).** For every path `p` inside the workspace (i.e. whose
canonical resolution succeeds) whose resolved target is not an existing
directory, `writeFile p c` succeeds and a subsequent `readFile p` yields
exactly `c`. -/
theorem c6_write_read_roundtrip (fs : FS) (p : VPath) (c : String) (h : HostPath)
    (hres : resolve fs p = some h) (hdir : fsGet fs h ≠ some .dir) :
    (writeFile fs p c).1 = .ok () ∧ readFile (writeFile fs p c).2 p = .ok c := by
  cases hcan : canonicalize p with
  | none =>
    exfalso
    have hr : resolve fs p = none := by simp [resolve, hcan]
    rw [hr] at hres
    exact Option.noConfusion hres
  | some n =>
    cases hn : fsGet fs n with
    | none =>
      have hr : resolve fs p = some n := by simp [resolve, hcan, hn]
      rw [hres] at hr
      have hhn : h = n := Option.some.inj hr
      subst hhn
      have hwf : writeFile fs p c = (.ok (), fsSet fs h (.file c)) := by
        simp [writeFile, hres, hn]
      rw [hwf]
      exact ⟨rfl, by simp [readFile, resolve, hcan, fsSet, fsGet]⟩
    | some e =>
      cases e with
      | file c₀ =>
        have hr : resolve fs p = some n := by simp [resolve, hcan, hn]
        rw [hres] at hr
        have hhn : h = n := Option.some.inj hr
        subst hhn
        have hwf : writeFile fs p c = (.ok (), fsSet fs h (.file c)) := by
          simp [writeFile, hres, hn]
        rw [hwf]
        exact ⟨rfl, by simp [readFile, resolve, hcan, fsSet, fsGet]⟩
      | dir =>
        have hr : resolve fs p = some n := by simp [resolve, hcan, hn]
        rw [hres] at hr
        have hhn : h = n := Option.some.inj hr
        subst hhn
        exact absurd hn hdir
      | symlink t =>
        cases hct : canonicalize t with
        | none =>
          exfalso
          have hr : resolve fs p = none := by simp [resolve, hcan, hn, hct]
          rw [hr] at hres
          exact Option.noConfusion hres
        | some m =>
          cases hm : fsGet fs m with
          | none =>
            have hr : resolve fs p = some m := by simp [resolve, hcan, hn, hct, hm]
            rw [hres] at hr
            have hhm : h = m := Option.some.inj hr
            subst hhm
            have hnh : ¬ h = n := by
              intro heq
              rw [heq, hn] at hm
              exact Option.noConfusion hm
            have hwf : writeFile fs p c = (.ok (), fsSet fs h (.file c)) := by
              simp [writeFile, hres, hm]
            rw [hwf]
            refine ⟨rfl, ?_⟩
            simp [readFile, resolve, hcan, fsSet, fsGet, hnh, hn, hct]
          | some e₂ =>
            cases e₂ with
            | file c₁ =>
              have hr : resolve fs p = some m := by
                simp [resolve, hcan, hn, hct, hm]
              rw [hres] at hr
              have hhm : h = m := Option.some.inj hr
              subst hhm
              have hnh : ¬ h = n := by
                intro heq
                rw [heq, hn] at hm
                simp at hm
              have hwf : writeFile fs p c = (.ok (), fsSet fs h (.file c)) := by
                simp [writeFile, hres, hm]
              rw [hwf]
              refine ⟨rfl, ?_⟩
              simp [readFile, resolve, hcan, fsSet, fsGet, hnh, hn, hct]
            | dir =>
              have hr : resolve fs p = some m := by
                simp [resolve, hcan, hn, hct, hm]
              rw [hres] at hr
              have hhm : h = m := Option.some.inj hr
              subst hhm
              exact absurd hm hdir
            | symlink t₂ =>
              exfalso
              have hr : resolve fs p = none := by
                simp [resolve, hcan, hn, hct, hm]
              rw [hr] at hres
              exact Option.noConfusion hres

/-- Witness for C6's amended theorem: writing `"hello"` to the fresh path
`notes.txt` in an empty workspace and reading it back yields `"hello"`. -/
theorem c6_write_read_roundtrip_witness :
    resolve ([] : FS) ⟨false, ["notes.txt"]⟩ = some ["notes.txt"]
    ∧ fsGet ([] : FS) ["notes.txt"] ≠ some .dir
    ∧ ((writeFile ([] : FS) ⟨false, ["notes.txt"]⟩ "hello").1 = .ok ()
      ∧ readFile (writeFile ([] : FS) ⟨false, ["notes.txt"]⟩ "hello").2
          ⟨false, ["notes.txt"]⟩ = .ok "hello") :=
  ⟨by decide, by decide,
   c6_write_read_roundtrip [] ⟨false, ["notes.txt"]⟩ "hello" ["notes.txt"]
     (by decide) (by decide)⟩

/-! ## Python execution controller

Modelled from the spec: the Python Execution Controller
(`src/core/pyodide-manager.ts` / `src/tools/python-execution.ts`) is absent
from `src/`.  Per spec §4.3 and §5, timeout enforcement uses a shared
interruption signal: a timer armed for `wallClockTimeoutMs` sets a flag that
the embedded runtime polls only at safe points — points where the code yields
control back to the single-threaded host (e.g. an async sleep).  CPU-bound
code that never yields cannot be interrupted and runs to completion.  On
trip, the result reports `success:false` with an error naming the timeout
value; fields that could not be computed are empty/absent, not stale. -/

/-- One unit of execution of submitted Python code, as the host observes it:
a stretch of work consuming `durationMs` of wall-clock time, which either
yields control back to the event loop at its end (`yields = true`, a safe
point at which the interrupt flag is polled) or keeps the CPU. -/
structure PyStep where
  yields : Bool
  durationMs : Nat
deriving DecidableEq

/-- Submitted Python code as the controller sees it: its host-visible step
trace, and — since the embedded interpreter's semantics are out of scope
(spec §1) — the stdout and final-expression value it produces on full
completion. -/
structure PyProgram where
  steps : List PyStep
  output : String
  resultVal : Option String

/-- The structured result of one execution (spec §3 `ExecutionResult`). -/
structure ExecutionResult where
  success : Bool
  stdout : String
  stderr : String
  result : Option String
  error : Option String
deriving DecidableEq

def totalDurationMs : List PyStep → Nat
  | [] => 0
  | s :: rest => s.durationMs + totalDurationMs rest

/-- The cooperative interruption loop: the timer flag becomes visible once
`timeoutMs` of wall-clock time has elapsed, and it is polled exactly at the
yield points.  Returns `true` iff the code ran to completion. -/
def runInterruptible (timeoutMs : Nat) : Nat → List PyStep → Bool
  | _, [] => true
  | elapsed, s :: rest =>
    if s.yields = true ∧ timeoutMs ≤ elapsed + s.durationMs then false
    else runInterruptible timeoutMs (elapsed + s.durationMs) rest

/-- The error text reported when the interruption timer trips, naming the
configured timeout value in milliseconds. -/
def pyTimeoutMessage (timeoutMs : Nat) : String :=
  "Execution timed out after " ++ (toString timeoutMs ++ "ms")

/-- Modelled from the spec: `executePython(code) -> ExecutionResult`.  The
code runs under the interruption timer; on completion the captured stdout and
last-expression value are returned, on interruption the result reports
`success:false` with the timeout error and explicitly empty fields. -/
def executePython (timeoutMs : Nat) (p : PyProgram) : ExecutionResult :=
  if runInterruptible timeoutMs 0 p.steps then
    { success := true, stdout := p.output, stderr := "",
      result := p.resultVal, error := none }
  else
    { success := false, stdout := "", stderr := "",
      result := none, error := some (pyTimeoutMessage timeoutMs) }

theorem runInterruptible_trips (timeoutMs : Nat) :
    ∀ (steps : List PyStep) (elapsed : Nat),
      (∀ s ∈ steps, s.yields = true) →
      elapsed < timeoutMs →
      timeoutMs ≤ elapsed + totalDurationMs steps →
      runInterruptible timeoutMs elapsed steps = false := by
  intro steps
  induction steps with
  | nil =>
    intro elapsed _ hlt hle
    simp [totalDurationMs] at hle
    omega
  | cons s rest ih =>
    intro elapsed hy hlt hle
    have hys : s.yields = true := hy s (by simp)
    by_cases htrip : timeoutMs ≤ elapsed + s.durationMs
    · simp [runInterruptible, hys, htrip]
    · have hrec := ih (elapsed + s.durationMs)
        (fun x hx => hy x (by simp [hx]))
        (by omega)
        (by simp [totalDurationMs] at hle; omega)
      simp [runInterruptible, htrip, hrec]

/-! ### Claims C2 and C3 -/

/-- **C2.** For every Python execution whose code repeatedly suspends
(every observable step yields to the event loop) for at least the configured
`wallClockTimeoutMs` in total, `executePython` returns `success := false`
with an error message that mentions the configured timeout value in
milliseconds. -/
theorem c2_yielding_code_times_out (timeoutMs : Nat) (p : PyProgram)
    (hpos : 0 < timeoutMs)
    (hy : ∀ s ∈ p.steps, s.yields = true)
    (hlong : timeoutMs ≤ totalDurationMs p.steps) :
    (executePython timeoutMs p).success = false
    ∧ ∃ msg, (executePython timeoutMs p).error = some msg
        ∧ strContainsSub msg (toString timeoutMs ++ "ms") = true := by
  have hrun : runInterruptible timeoutMs 0 p.steps = false :=
    runInterruptible_trips timeoutMs p.steps 0 hy hpos (by simpa using hlong)
  refine ⟨by simp [executePython, hrun], pyTimeoutMessage timeoutMs,
    by simp [executePython, hrun], ?_⟩
  exact strContainsSub_of_append "Execution timed out after " _

/-- Witness for C2: a loop of thirty `asyncio.sleep(0.1)`-style yielding
steps (3000 ms total) against the test configuration's 2000 ms timeout is
interrupted and the error names `2000ms`. -/
theorem c2_yielding_code_times_out_witness :
    0 < 2000
    ∧ ((∀ s ∈ List.replicate 30 (PyStep.mk true 100), s.yields = true)
    ∧ 2000 ≤ totalDurationMs (List.replicate 30 (PyStep.mk true 100)))
    ∧ ((executePython 2000 ⟨List.replicate 30 ⟨true, 100⟩, "", none⟩).success = false
      ∧ ∃ msg,
          (executePython 2000 ⟨List.replicate 30 ⟨true, 100⟩, "", none⟩).error = some msg
          ∧ strContainsSub msg (toString 2000 ++ "ms") = true) :=
  ⟨by decide,
   ⟨fun s hs => by
      have := List.eq_of_mem_replicate hs
      rw [this],
    by decide⟩,
   c2_yielding_code_times_out 2000 ⟨List.replicate 30 ⟨true, 100⟩, "", none⟩
     (by decide)
     (fun s hs => by
        have := List.eq_of_mem_replicate hs
        rw [this])
     (by decide)⟩

/-- The observable trace and output of the test program `total = 0; for i in
range(1000): total += i; print(...)` — a single CPU-bound stretch that never
yields, whose printed value is the actually computed sum of `0..999`. -/
def sumProgram : PyProgram :=
  { steps := [⟨false, 10000⟩],
    output := "Sum of 0-999: " ++ toString ((List.range 1000).foldl (· + ·) 0) ++ "\n",
    resultVal := none }

set_option maxRecDepth 8192 in
/-- **C3.** A Python execution consisting only of synchronous, non-yielding
pure computation — the bounded loop summing `0..999` — completes with
success and its stdout carries the exact computed value `499500`, and the
call never reports a timeout, regardless of the configured
`wallClockTimeoutMs`. -/
theorem c3_sync_computation_completes (timeoutMs : Nat) :
    (executePython timeoutMs sumProgram).success = true
    ∧ (executePython timeoutMs sumProgram).stdout = "Sum of 0-999: 499500\n"
    ∧ (executePython timeoutMs sumProgram).error = none := by
  have hrun : runInterruptible timeoutMs 0 ([⟨false, 10000⟩] : List PyStep) = true := by
    simp [runInterruptible]
  have hsum : (List.range 1000).foldl (· + ·) 0 = 499500 := by decide
  refine ⟨?_, ?_, ?_⟩ <;> simp only [executePython, sumProgram, hrun, hsum, if_true]
  decide

/-- Witness for C3 at a concrete timeout (the test configuration's
2000 ms). -/
theorem c3_sync_computation_completes_witness :
    (executePython 2000 sumProgram).success = true
    ∧ (executePython 2000 sumProgram).stdout = "Sum of 0-999: 499500\n"
    ∧ (executePython 2000 sumProgram).error = none :=
  c3_sync_computation_completes 2000

/-! ### Claim C9: host environment is not observable from the sandbox

Modelled from the spec: the Pyodide manager (`src/core/pyodide-manager.ts`)
is absent from `src/`.  Per spec §1 the sandbox "guarantees that no code path
can read, mutate, or exfiltrate anything outside an explicit workspace
boundary"; the WASM-hosted interpreter receives an Emscripten-internal
environment that is constructed without consulting the host process
environment, so `os.environ` as seen by sandboxed code is a fixed sandbox
environment. -/

/-- The environment visible to sandboxed Python code, as a function of the
host process environment.  It is built entirely from sandbox-internal
constants; the host environment is never consulted. -/
def sandboxEnviron (_hostEnv : List (String × String)) : List (String × String) :=
  [("HOME", "/workspace"), ("LANG", "C.UTF-8"), ("PYTHONHASHSEED", "0")]

/-- The name patterns the escape test treats as sensitive host material. -/
def sensitiveNames : List String :=
  ["SECRET", "KEY", "TOKEN", "PASSWORD", "CREDENTIAL"]

/-- Uppercase a string (structurally, character by character), mirroring the
test's `k.upper()`. -/
def strUpper (s : String) : String :=
  String.mk (s.toList.map Char.toUpper)

/-- An environment is safe when no variable name contains a sensitive
pattern and `HOME` does not expose a host home directory path. -/
def envSafe (env : List (String × String)) : Bool :=
  env.all fun kv =>
    (sensitiveNames.all fun pat => !(strContainsSub (strUpper kv.1) pat))
    && (!(kv.1 == "HOME") || !(strContainsSub kv.2 "/home/"))

/-- **C9.** Host environment variables are not observable from sandboxed
Python code: the environment exposed to the sandbox is independent of the
host process environment (noninterference: any two host environments yield
the same observable environment), it contains no sensitive keys
(SECRET/KEY/TOKEN/PASSWORD/CREDENTIAL), and it does not expose the host HOME
path. -/
theorem c9_no_host_env_leakage (hostEnv₁ hostEnv₂ : List (String × String)) :
    sandboxEnviron hostEnv₁ = sandboxEnviron hostEnv₂
    ∧ envSafe (sandboxEnviron hostEnv₁) = true :=
  ⟨rfl, by unfold sandboxEnviron; decide⟩

/-- Witness for C9 at a host environment that does carry sensitive keys. -/
theorem c9_no_host_env_leakage_witness :
    sandboxEnviron [("AWS_SECRET_ACCESS_KEY", "hunter2"), ("HOME", "/home/alice")]
        = sandboxEnviron []
    ∧ envSafe (sandboxEnviron
        [("AWS_SECRET_ACCESS_KEY", "hunter2"), ("HOME", "/home/alice")]) = true :=
  c9_no_host_env_leakage [("AWS_SECRET_ACCESS_KEY", "hunter2"), ("HOME", "/home/alice")] []

/-! ## Shell execution controller

Modelled from the spec: the Shell Execution Controller
(`src/core/bash-manager.ts` / `src/tools/bash-execution.ts`) is absent from
`src/`.  Per spec §4.4 it owns one persistent shell-emulator session with its
own virtual working directory (defaulting to the workspace root, with a
scoped per-call override that does not mutate the session default), enforces
two independent circuit breakers from the Resource Limit Policy — a loop
iteration cap and a per-call command-count cap, either of which aborts the
call with a non-zero exit code and a `stderr` message naming the limit — and
shapes results as `{ exitCode, stdout, stderr }` with exit code 0 only on
full successful completion of the top-level pipeline. -/

/-- The pure resource-limit configuration (spec §3/§4.2). -/
structure ResourceLimitPolicy where
  maxLoopIterations : Nat
  maxCommandCount : Nat
  wallClockTimeoutMs : Nat
  maxOutputBytes : Nat
deriving DecidableEq

/-- Modelled from the spec: the startup configuration's default limits
(environment-overridable scalar inputs; concrete values chosen for concrete
executions). -/
def defaultLimits : ResourceLimitPolicy :=
  { maxLoopIterations := 1000
    maxCommandCount := 1000
    wallClockTimeoutMs := 30000
    maxOutputBytes := 1048576 }

/-- The simple commands exercised by the shell-level claims.  The embedded
interpreter's full command vocabulary is out of scope (spec §4.4); the
controller's own responsibility is limiting, directory scoping and output
shaping. -/
inductive ShCmd
  | echo (args : List String)
  | tru
  | fls
  | grep (pat : String)
  | pwd
  | cd (dir : String)
deriving DecidableEq

/-- Top-level shell statements: a simple command, a command with its stdout
redirected to file descriptor 2 (`>&2`), a two-stage pipeline, and
`while true; do ...; done`. -/
inductive ShStmt
  | cmd (c : ShCmd)
  | redirErr (c : ShCmd)
  | pipe (a b : ShCmd)
  | whileTrue (body : ShStmt)
deriving DecidableEq

/-- Interpretation state of one shell call: current virtual working
directory, the two captured output streams, and the two breaker counters. -/
structure ShState where
  cwd : String
  stdoutAcc : String
  stderrAcc : String
  cmdCount : Nat
  loopIters : Nat
deriving DecidableEq

/-- Which circuit breaker aborted the call. -/
inductive ShAbort
  | loopLimit
  | cmdLimit
deriving DecidableEq

def joinWith (sep : String) : List String → String
  | [] => ""
  | [x] => x
  | x :: y :: xs => x ++ sep ++ joinWith sep (y :: xs)

def splitChars (acc : List Char) : List Char → List String
  | [] => [String.mk acc.reverse]
  | c :: rest =>
    if c = '\n' then String.mk acc.reverse :: splitChars [] rest
    else splitChars (c :: acc) rest

/-- Split captured text into lines at newline characters. -/
def splitLines (s : String) : List String := splitChars [] s.toList

def linesOut (ls : List String) : String :=
  ls.foldl (fun a l => a ++ (l ++ "\n")) ""

/-- The observable behaviour of one simple command: exit code and produced
stdout text, given the text arriving on its stdin and the current state. -/
def runCmd (stdin : String) (st : ShState) : ShCmd → Nat × String
  | .echo args => (0, joinWith " " args ++ "\n")
  | .tru => (0, "")
  | .fls => (1, "")
  | .grep pat =>
    let matched := (splitLines stdin).filter fun l => strContainsSub l pat
    (if matched.isEmpty then 1 else 0, linesOut matched)
  | .pwd => (0, st.cwd ++ "\n")
  | .cd _ => (0, "")

/-- Run one simple command under the command-count breaker: each command
executed in the call counts against `maxCommandCount`; exceeding it aborts
the call. -/
def execCmd (L : ResourceLimitPolicy) (stdin : String) (c : ShCmd)
    (st : ShState) : Except ShAbort (Nat × String) × ShState :=
  if L.maxCommandCount < st.cmdCount + 1 then (.error .cmdLimit, st)
  else
    let st₁ := { st with cmdCount := st.cmdCount + 1 }
    match c with
    | .cd d => (.ok (0, ""), { st₁ with cwd := d })
    | c₂ => (runCmd stdin st₁ c₂ |> fun eo => (.ok eo, st₁))

/-- The interpretation loop of one shell call.  `fuel` bounds loop
re-entries; the executor always supplies strictly more fuel than
`maxLoopIterations`, so the loop-iteration breaker trips before fuel can run
out.  Loop iterations count against `maxLoopIterations`; every executed
command counts against `maxCommandCount`. -/
def runStmt (L : ResourceLimitPolicy) :
    Nat → ShStmt → ShState → (Except ShAbort Nat) × ShState
  | _, .cmd c, st =>
    match execCmd L "" c st with
    | (.error x, st₂) => (.error x, st₂)
    | (.ok (e, out), st₂) => (.ok e, { st₂ with stdoutAcc := st₂.stdoutAcc ++ out })
  | _, .redirErr c, st =>
    match execCmd L "" c st with
    | (.error x, st₂) => (.error x, st₂)
    | (.ok (e, out), st₂) => (.ok e, { st₂ with stderrAcc := st₂.stderrAcc ++ out })
  | _, .pipe a b, st =>
    match execCmd L "" a st with
    | (.error x, st₂) => (.error x, st₂)
    | (.ok (_, outA), st₂) =>
      match execCmd L outA b st₂ with
      | (.error x, st₃) => (.error x, st₃)
      | (.ok (e, outB), st₃) => (.ok e, { st₃ with stdoutAcc := st₃.stdoutAcc ++ outB })
  | 0, .whileTrue _, st =>
    if L.maxLoopIterations < st.loopIters + 1 then (.error .loopLimit, st)
    else (.ok 0, st)
  | fuel₂ + 1, .whileTrue body, st =>
    if L.maxLoopIterations < st.loopIters + 1 then (.error .loopLimit, st)
    else
      match runStmt L fuel₂ body { st with loopIters := st.loopIters + 1 } with
      | (.error x, st₂) => (.error x, st₂)
      | (.ok _, st₂) => runStmt L fuel₂ (.whileTrue body) st₂

/-- The per-manager persistent shell session: its virtual working directory
state (spec §4.4). -/
structure ShellSession where
  cwd : String
deriving DecidableEq

/-- A fresh session's working directory defaults to the workspace root. -/
def ShellSession.fresh : ShellSession := ⟨"/"⟩

/-- The shaped result of one shell call (spec §4.4/§6). -/
structure ShellResult where
  exitCode : Nat
  stdout : String
  stderr : String
deriving DecidableEq

/-- The `stderr` text explicitly naming which limit was hit (spec §4.4:
load-bearing for callers diagnosing runaway scripts). -/
def abortMessage : ShAbort → String
  | .loopLimit => "Execution aborted: maxLoopIterations limit exceeded"
  | .cmdLimit => "Execution aborted: maxCommandCount limit exceeded"

/-- Modelled from the spec: `executeShell(command, options?) -> { exitCode,
stdout, stderr }`.  An optional working-directory override scopes only this
call; without an override, a `cd` performed by the command persists in the
session default.  A tripped circuit breaker yields a non-zero exit code with
`stderr` naming the limit. -/
def executeShell (L : ResourceLimitPolicy) (stmt : ShStmt)
    (opts : Option String) (sess : ShellSession) : ShellResult × ShellSession :=
  let st₀ : ShState := ⟨opts.getD sess.cwd, "", "", 0, 0⟩
  match runStmt L (L.maxLoopIterations + 1) stmt st₀ with
  | (.ok e, st) =>
    (⟨e, st.stdoutAcc, st.stderrAcc⟩,
     ⟨if opts.isSome then sess.cwd else st.cwd⟩)
  | (.error a, st) =>
    (⟨1, st.stdoutAcc, st.stderrAcc ++ abortMessage a⟩,
     ⟨if opts.isSome then sess.cwd else st.cwd⟩)

/-- The unbounded loop of the claim: `while true; do echo 'a'; done`. -/
def loopEcho : ShStmt := .whileTrue (.cmd (.echo ["a"]))

/-- One unfolding step of the loop interpreter below the iteration cap. -/
theorem runStmt_while_step (L : ResourceLimitPolicy) (fuel : Nat) (body : ShStmt)
    (st : ShState) (htrip : ¬ L.maxLoopIterations < st.loopIters + 1) :
    runStmt L (fuel + 1) (.whileTrue body) st
      = match runStmt L fuel body { st with loopIters := st.loopIters + 1 } with
        | (.error x, st₂) => (.error x, st₂)
        | (.ok _, st₂) => runStmt L fuel (.whileTrue body) st₂ := by
  simp only [runStmt]
  rw [if_neg htrip]

/-- Every entry into the unbounded `echo` loop eventually aborts on one of
the two breakers, without writing anything to stderr before the abort
message. -/
theorem loopEcho_aborts (L : ResourceLimitPolicy) :
    ∀ (fuel : Nat) (st : ShState),
      L.maxLoopIterations < fuel + st.loopIters →
      ∃ a st₂, runStmt L fuel loopEcho st = (.error a, st₂)
        ∧ st₂.stderrAcc = st.stderrAcc := by
  intro fuel
  induction fuel with
  | zero =>
    intro st hlt
    refine ⟨.loopLimit, st, ?_, rfl⟩
    show (if L.maxLoopIterations < st.loopIters + 1 then
            ((.error .loopLimit, st) : (Except ShAbort Nat) × ShState)
          else (.ok 0, st)) = (.error .loopLimit, st)
    rw [if_pos (by omega)]
  | succ fuel₂ ih =>
    intro st hlt
    by_cases htrip : L.maxLoopIterations < st.loopIters + 1
    · refine ⟨.loopLimit, st, ?_, rfl⟩
      simp only [loopEcho, runStmt]
      rw [if_pos htrip]
    · by_cases hcmd : L.maxCommandCount < st.cmdCount + 1
      · refine ⟨.cmdLimit, { st with loopIters := st.loopIters + 1 }, ?_, rfl⟩
        have hbody₂ :
            runStmt L fuel₂ (.cmd (.echo ["a"]))
                { st with loopIters := st.loopIters + 1 }
              = (.error .cmdLimit, { st with loopIters := st.loopIters + 1 }) := by
          simp only [runStmt, execCmd]
          rw [if_pos hcmd]
        show runStmt L (fuel₂ + 1) (.whileTrue (.cmd (.echo ["a"]))) st
          = (.error .cmdLimit, { st with loopIters := st.loopIters + 1 })
        rw [runStmt_while_step L fuel₂ _ st htrip, hbody₂]
      · have hbody :
            runStmt L fuel₂ (.cmd (.echo ["a"]))
                { st with loopIters := st.loopIters + 1 }
              = (.ok 0,
                 { st with
                    loopIters := st.loopIters + 1
                    cmdCount := st.cmdCount + 1
                    stdoutAcc := st.stdoutAcc ++ ("a" ++ "\n") }) := by
          simp only [runStmt, execCmd]
          rw [if_neg hcmd]
          rfl
        obtain ⟨a, st₂, heq, hstderr⟩ := ih
          { st with
              loopIters := st.loopIters + 1
              cmdCount := st.cmdCount + 1
              stdoutAcc := st.stdoutAcc ++ ("a" ++ "\n") }
          (by simp; omega)
        refine ⟨a, st₂, ?_, hstderr⟩
        show runStmt L (fuel₂ + 1) (.whileTrue (.cmd (.echo ["a"]))) st
          = (.error a, st₂)
        rw [runStmt_while_step L fuel₂ _ st htrip, hbody]
        exact heq

/-! ### Claims C4, C7, C8, C10 -/

/-- **C4.** Every shell execution of the unbounded loop `while true; do echo
'a'; done` terminates: it is aborted by one of the two independent circuit
breakers, returning a non-zero exit code with a stderr message that
explicitly names which limit was hit — `maxLoopIterations` or
`maxCommandCount`. -/
theorem c4_unbounded_loop_aborts (L : ResourceLimitPolicy)
    (opts : Option String) (sess : ShellSession) :
    (executeShell L loopEcho opts sess).1.exitCode ≠ 0
    ∧ (strContainsSub (executeShell L loopEcho opts sess).1.stderr
          "maxLoopIterations" = true
      ∨ strContainsSub (executeShell L loopEcho opts sess).1.stderr
          "maxCommandCount" = true) := by
  obtain ⟨a, st₂, heq, hstderr⟩ :=
    loopEcho_aborts L (L.maxLoopIterations + 1)
      ⟨opts.getD sess.cwd, "", "", 0, 0⟩ (by simp)
  have hstderr₂ : st₂.stderrAcc = "" := hstderr
  have hshape :
      (executeShell L loopEcho opts sess).1
        = ⟨1, st₂.stdoutAcc, st₂.stderrAcc ++ abortMessage a⟩ := by
    simp only [executeShell]
    rw [heq]
  rw [hshape, hstderr₂]
  refine ⟨by simp, ?_⟩
  cases a with
  | loopLimit =>
    left
    show strContainsSub ("" ++ abortMessage .loopLimit) "maxLoopIterations" = true
    rw [string_empty_append]
    decide
  | cmdLimit =>
    right
    show strContainsSub ("" ++ abortMessage .cmdLimit) "maxCommandCount" = true
    rw [string_empty_append]
    decide

/-- Witness for C4 at the default limits and a fresh session. -/
theorem c4_unbounded_loop_aborts_witness :
    (executeShell defaultLimits loopEcho none ShellSession.fresh).1.exitCode ≠ 0
    ∧ (strContainsSub
          (executeShell defaultLimits loopEcho none ShellSession.fresh).1.stderr
          "maxLoopIterations" = true
      ∨ strContainsSub
          (executeShell defaultLimits loopEcho none ShellSession.fresh).1.stderr
          "maxCommandCount" = true) :=
  c4_unbounded_loop_aborts defaultLimits none ShellSession.fresh

/-- **C7.** `executeShell` returns exit code 0 only on full successful
completion of the top-level pipeline: `echo 'x' | grep 'x'` exits 0 with
stdout `"x\n"` (the line `x`), and `false` yields a non-zero exit code with
empty stdout. -/
theorem c7_pipeline_exit_codes :
    ((executeShell defaultLimits (.pipe (.echo ["x"]) (.grep "x")) none
        ShellSession.fresh).1.exitCode = 0
      ∧ (executeShell defaultLimits (.pipe (.echo ["x"]) (.grep "x")) none
        ShellSession.fresh).1.stdout = "x\n")
    ∧ ((executeShell defaultLimits (.cmd .fls) none
        ShellSession.fresh).1.exitCode ≠ 0
      ∧ (executeShell defaultLimits (.cmd .fls) none
        ShellSession.fresh).1.stdout = "") := by
  refine ⟨⟨?_, ?_⟩, ?_, ?_⟩ <;> decide

/-- **C10.** Shell stdout and stderr are captured as separate streams:
`echo 'error' >&2` puts the text only in the stderr field, leaves stdout
empty, and the redirection itself completes with exit code 0. -/
theorem c10_stderr_separate_stream :
    (executeShell defaultLimits (.redirErr (.echo ["error"])) none
        ShellSession.fresh).1.exitCode = 0
    ∧ (executeShell defaultLimits (.redirErr (.echo ["error"])) none
        ShellSession.fresh).1.stdout = ""
    ∧ (executeShell defaultLimits (.redirErr (.echo ["error"])) none
        ShellSession.fresh).1.stderr = "error\n" := by
  refine ⟨?_, ?_, ?_⟩ <;> decide

/-- **C8.** A working-directory override scopes only the call it is passed
to: whatever the overridden call executes (even a `cd`), the session default
working directory is unchanged afterwards, a subsequent call without the
option runs in the session default (its `pwd` prints the session's directory),
and a fresh session's default is the workspace root. -/
theorem c8_cwd_override_scoped (L : ResourceLimitPolicy) (stmt : ShStmt)
    (o : String) (sess : ShellSession) (hcmd : 0 < L.maxCommandCount) :
    (executeShell L stmt (some o) sess).2 = sess
    ∧ (executeShell L (.cmd .pwd) none
        ((executeShell L stmt (some o) sess).2)).1.stdout = sess.cwd ++ "\n"
    ∧ ShellSession.fresh.cwd = "/" := by
  have hnot : ¬ L.maxCommandCount < 0 + 1 := by omega
  have hsess : (executeShell L stmt (some o) sess).2 = sess := by
    simp only [executeShell, Option.getD]
    rcases hr : runStmt L (L.maxLoopIterations + 1) stmt ⟨o, "", "", 0, 0⟩
      with ⟨r, st⟩
    cases r with
    | ok e => rfl
    | error a => rfl
  have hpwd : ∀ s : ShellSession,
      (executeShell L (.cmd .pwd) none s).1.stdout = s.cwd ++ "\n" := by
    intro s
    have h1 : execCmd L "" .pwd (⟨s.cwd, "", "", 0, 0⟩ : ShState)
        = (.ok (0, s.cwd ++ "\n"), ⟨s.cwd, "", "", 1, 0⟩) := by
      simp only [execCmd]
      rw [if_neg hnot]
      rfl
    have h2 : runStmt L (L.maxLoopIterations + 1) (.cmd .pwd)
        (⟨s.cwd, "", "", 0, 0⟩ : ShState)
        = (.ok 0, ⟨s.cwd, "" ++ (s.cwd ++ "\n"), "", 1, 0⟩) := by
      simp only [runStmt]
      rw [h1]
    simp only [executeShell, Option.getD]
    rw [h2, string_empty_append]
  exact ⟨hsess, by rw [hsess]; exact hpwd sess, rfl⟩

/-- Witness for C8: an overridden call that even changes directory with `cd`
leaves a fresh session's default at the workspace root. -/
theorem c8_cwd_override_scoped_witness :
    0 < defaultLimits.maxCommandCount
    ∧ ((executeShell defaultLimits (.cmd (.cd "/workdir")) (some "/workdir")
          ShellSession.fresh).2 = ShellSession.fresh
      ∧ (executeShell defaultLimits (.cmd .pwd) none
          ((executeShell defaultLimits (.cmd (.cd "/workdir")) (some "/workdir")
            ShellSession.fresh).2)).1.stdout = ShellSession.fresh.cwd ++ "\n"
      ∧ ShellSession.fresh.cwd = "/") :=
  ⟨by decide,
   c8_cwd_override_scoped defaultLimits (.cmd (.cd "/workdir")) "/workdir"
     ShellSession.fresh (by decide)⟩

/-! ## Sandbox coordinator: per-session call serialization

Modelled from the spec: the coordination logic inside the managers created by
`main` (`src/src/server.ts` lines 27–54 constructs one `PyodideManager` and
one `BashManager`; their implementation files are absent from `src/`).  Per
spec §4.3/§5, each language controller owns a session state machine
`Uninitialized → Initializing → Ready → Executing → Ready`; calls arriving
during `Initializing` or `Executing` are queued, not rejected, and served
strictly in arrival order, with at most one execution in flight per session,
and a queued call resolves only after the prior call fully completes —
success or failure alike. -/

/-- The session lifecycle phases of one language controller (spec §4.3). -/
inductive Phase
  | uninitialized
  | initializing
  | ready
  | executing
deriving DecidableEq

/-- The observable scheduling state of one controller: its phase, the FIFO
queue of waiting calls, the call currently in flight (at most one, by
construction of the type), and the calls already completed, in completion
order.  Calls are identified by arrival numbers. -/
structure Coordinator where
  phase : Phase
  queue : List Nat
  current : Option Nat
  completed : List Nat
deriving DecidableEq

/-- A controller before any call has arrived. -/
def Coordinator.initial : Coordinator := ⟨.uninitialized, [], none, []⟩

/-- The scheduling events of one session: a call arrives, first-use
initialization completes, or the in-flight execution completes (with success
or failure — completion is what matters for scheduling). -/
inductive CoordEvent
  | arrive (id : Nat)
  | initDone
  | execDone (success : Bool)

/-- Dequeue the next waiting call, if any, into execution. -/
def startNext (c : Coordinator) : Coordinator :=
  match c.queue with
  | [] => { c with phase := .ready, current := none }
  | i :: rest => { c with phase := .executing, current := some i, queue := rest }

/-- Modelled from the spec: one scheduling transition.  An arrival during
`Initializing` or `Executing` is appended to the queue (never rejected); an
arrival on a `Ready` controller starts executing immediately; the first
arrival triggers lazy initialization and waits for it.  Completion of
initialization or of the in-flight call dequeues the next waiting call. -/
def coordStep (c : Coordinator) : CoordEvent → Coordinator
  | .arrive i =>
    match c.phase with
    | .uninitialized => { c with phase := .initializing, queue := c.queue ++ [i] }
    | .initializing => { c with queue := c.queue ++ [i] }
    | .executing => { c with queue := c.queue ++ [i] }
    | .ready => { c with phase := .executing, current := some i }
  | .initDone =>
    match c.phase with
    | .initializing => startNext c
    | _ => c
  | .execDone _ =>
    match c.phase, c.current with
    | .executing, some i => startNext { c with completed := c.completed ++ [i], current := none }
    | _, _ => c

/-- Run a controller from its initial state through a sequence of events. -/
def coordRun (evs : List CoordEvent) : Coordinator :=
  evs.foldl coordStep .initial

/-- The ids of the calls that arrived, in arrival order. -/
def arrivals : List CoordEvent → List Nat
  | [] => []
  | .arrive i :: rest => i :: arrivals rest
  | _ :: rest => arrivals rest

/-- The scheduling invariant: completed calls (in completion order), then
the call in flight, then the queue (in arrival order) — concatenated, they
are exactly the arrivals in arrival order; the controller is `Executing` iff
a call is in flight; and a `Ready` controller has an empty queue. -/
def coordInv (c : Coordinator) (as : List Nat) : Prop :=
  c.completed ++ c.current.toList ++ c.queue = as
  ∧ (c.current.isSome = true ↔ c.phase = .executing)
  ∧ (c.phase = .ready → c.queue = [])

theorem coordInv_initial : coordInv .initial [] := by
  refine ⟨rfl, ?_, ?_⟩ <;> simp [Coordinator.initial]

theorem coordStep_arrive (c : Coordinator) (as : List Nat) (i : Nat)
    (h : coordInv c as) : coordInv (coordStep c (.arrive i)) (as ++ [i]) := by
  obtain ⟨horder, hflight, hready⟩ := h
  cases hph : c.phase with
  | uninitialized =>
    refine ⟨?_, ?_, ?_⟩ <;> simp [coordStep, hph]
    · rw [← horder]; simp
    · rw [hph] at hflight; simpa using hflight
  | initializing =>
    refine ⟨?_, ?_, ?_⟩ <;> simp [coordStep, hph]
    · rw [← horder]; simp
    · rw [hph] at hflight; simpa using hflight
  | executing =>
    refine ⟨?_, ?_, ?_⟩ <;> simp [coordStep, hph]
    · rw [← horder]; simp
    · exact hflight.mpr hph
  | ready =>
    have hq : c.queue = [] := hready hph
    have hcur : c.current = none := by
      cases hc : c.current with
      | none => rfl
      | some j =>
        rw [hc] at hflight
        simp at hflight
        rw [hflight] at hph
        exact absurd hph (by simp)
    refine ⟨?_, ?_, ?_⟩ <;> simp [coordStep, hph]
    rw [← horder]
    simp [hq, hcur]

theorem coordStep_initDone (c : Coordinator) (as : List Nat)
    (h : coordInv c as) : coordInv (coordStep c .initDone) as := by
  obtain ⟨horder, hflight, hready⟩ := h
  cases hph : c.phase with
  | initializing =>
    have hcur : c.current = none := by
      cases hc : c.current with
      | none => rfl
      | some j =>
        rw [hc] at hflight
        simp at hflight
        rw [hflight] at hph
        exact absurd hph (by simp)
    cases hq : c.queue with
    | nil =>
      refine ⟨?_, ?_, ?_⟩ <;> simp [coordStep, hph, startNext, hq]
      rw [← horder]; simp [hq, hcur]
    | cons j rest =>
      refine ⟨?_, ?_, ?_⟩ <;> simp [coordStep, hph, startNext, hq]
      rw [← horder]; simp [hq, hcur]
  | uninitialized => simpa [coordStep, hph] using ⟨horder, hflight, hready⟩
  | ready => simpa [coordStep, hph] using ⟨horder, hflight, hready⟩
  | executing => simpa [coordStep, hph] using ⟨horder, hflight, hready⟩

theorem coordStep_execDone (c : Coordinator) (as : List Nat) (b : Bool)
    (h : coordInv c as) : coordInv (coordStep c (.execDone b)) as := by
  obtain ⟨horder, hflight, hready⟩ := h
  cases hph : c.phase with
  | executing =>
    cases hc : c.current with
    | none =>
      exfalso
      rw [hc] at hflight
      simp at hflight
      rw [hph] at hflight
      simp at hflight
    | some i =>
      cases hq : c.queue with
      | nil =>
        refine ⟨?_, ?_, ?_⟩ <;> simp [coordStep, hph, hc, startNext, hq]
        rw [← horder]; simp [hq, hc]
      | cons j rest =>
        refine ⟨?_, ?_, ?_⟩ <;> simp [coordStep, hph, hc, startNext, hq]
        rw [← horder]; simp [hq, hc]
  | uninitialized =>
    cases hc : c.current <;>
      simpa [coordStep, hph, hc] using ⟨horder, hflight, hready⟩
  | initializing =>
    cases hc : c.current <;>
      simpa [coordStep, hph, hc] using ⟨horder, hflight, hready⟩
  | ready =>
    cases hc : c.current <;>
      simpa [coordStep, hph, hc] using ⟨horder, hflight, hready⟩

theorem coordRun_inv_aux :
    ∀ (evs : List CoordEvent) (c : Coordinator) (as : List Nat),
      coordInv c as → coordInv (evs.foldl coordStep c) (as ++ arrivals evs) := by
  intro evs
  induction evs with
  | nil => intro c as h; simpa [arrivals] using h
  | cons e rest ih =>
    intro c as h
    cases e with
    | arrive i =>
      have h₂ := coordStep_arrive c as i h
      have h₃ := ih (coordStep c (.arrive i)) (as ++ [i]) h₂
      simpa [arrivals, List.append_assoc] using h₃
    | initDone =>
      have h₂ := coordStep_initDone c as h
      have h₃ := ih (coordStep c .initDone) as h₂
      simpa [arrivals] using h₃
    | execDone b =>
      have h₂ := coordStep_execDone c as b h
      have h₃ := ih (coordStep c (.execDone b)) as h₂
      simpa [arrivals] using h₃

/-! ### Claim C5 -/

/-- **C5.** For every event sequence of a language controller session, calls
arriving while another is in flight (`Initializing` or `Executing`) are
queued, never rejected or dropped, and are served strictly in arrival order
with at most one execution in flight: the completed calls (in completion
order), the call currently in flight, and the still-queued calls — in that
order — are exactly the arrivals in arrival order (so a call completes only
after every earlier arrival has fully completed, success or failure); the
controller is `Executing` exactly when a call is in flight; and a `Ready`
controller has an empty queue. -/
theorem c5_calls_serialized_fifo (evs : List CoordEvent) :
    (coordRun evs).completed ++ (coordRun evs).current.toList ++ (coordRun evs).queue
        = arrivals evs
    ∧ ((coordRun evs).current.isSome = true ↔ (coordRun evs).phase = .executing)
    ∧ ((coordRun evs).phase = .ready → (coordRun evs).queue = []) := by
  have h := coordRun_inv_aux evs .initial [] coordInv_initial
  simpa [coordRun, coordInv] using h

/-- Witness for C5: a second call arrives while the first is in flight; it
is queued and completes after the first. -/
theorem c5_calls_serialized_fifo_witness :
    (coordRun [.arrive 1, .initDone, .arrive 2, .execDone true]).completed
        ++ (coordRun [.arrive 1, .initDone, .arrive 2, .execDone true]).current.toList
        ++ (coordRun [.arrive 1, .initDone, .arrive 2, .execDone true]).queue
        = arrivals [.arrive 1, .initDone, .arrive 2, .execDone true]
    ∧ ((coordRun [.arrive 1, .initDone, .arrive 2, .execDone true]).current.isSome = true
        ↔ (coordRun [.arrive 1, .initDone, .arrive 2, .execDone true]).phase = .executing)
    ∧ ((coordRun [.arrive 1, .initDone, .arrive 2, .execDone true]).phase = .ready
        → (coordRun [.arrive 1, .initDone, .arrive 2, .execDone true]).queue = []) :=
  c5_calls_serialized_fifo [.arrive 1, .initDone, .arrive 2, .execDone true]

end Heimdall
